import Mathlib

/-!
Verification of the notification ingestion loop of `matchingEngine.py`.

The script's `ZMQHandler.handle` coroutine receives one multi-part ZMQ frame,
decodes it (topic = `msg[0]`, body = `msg[1]`, optional little-endian uint32
sequence from `msg[-1]` when that part is exactly 4 bytes), dispatches the
decoded notification to the consumer (the `print` calls), and then reschedules
itself with `asyncio.ensure_future(self.handle())`.

Shallow embedding: byte strings are lists of naturals, a raw multi-part frame
is a list of byte strings, and the per-frame decode is a pure function.  The
loop is modelled as a function over the finite list of frames that arrive,
parameterised by a consumer handler that may raise (returns `false`); an
observable event trace records receives and handler invocations.
-/

/-- Byte strings are modelled as lists of naturals (each byte 0..255). -/
abbrev Bytes := List Nat

/-- A raw multi-part frame as delivered by the transport: a list of byte
strings. -/
abbrev RawFrame := List Bytes

/-- ASCII byte string of a literal, modelling Python byte literals such as
`b"hashblock"`. -/
def bytesOfAscii (s : String) : Bytes :=
  s.data.map Char.toNat

/-- The enumerated notification topics of the data model. -/
inductive Topic
  | BlockHash
  | TxHash
  | RawBlockHeader
  | RawTx
deriving DecidableEq, Repr

/-- A decoded notification: topic, payload bytes, and the optional sequence
number.  `sequence = none` models the source's `"Unknown"` case. -/
structure Notification where
  topic : Topic
  payload : Bytes
  sequence : Option Nat
deriving DecidableEq, Repr

/-- Little-endian unsigned integer interpretation of a byte string, as
`struct.unpack` with format `<I` computes on a 4-byte input (the decode only
applies it to byte strings of length exactly 4). -/
def leUint32 (bs : Bytes) : Nat :=
  bs.reverse.foldl (fun acc b => 256 * acc + b) 0

/-- Sequence computation of `handle` (source lines 38-41): the trailing frame
part is decoded as a little-endian uint32 exactly when it is 4 bytes long;
otherwise the sequence is unknown (`none`). -/
def seqOf (lastPart : Bytes) : Option Nat :=
  if lastPart.length = 4 then some (leUint32 lastPart) else none

/-- Result of decoding one raw frame, as performed by the body of
`ZMQHandler.handle` before it reschedules itself:
`fault` models an uncaught `IndexError` on `msg[0]` / `msg[1]` (frame too
short), `dropped` models a topic byte string matching none of the four
literals (the frame falls through all branches), and `notif n` models a
successful decode producing the notification handed to the consumer. -/
inductive DecodeResult
  | fault
  | dropped
  | notif (n : Notification)
deriving DecidableEq, Repr

namespace ZMQHandler

/-- Decode step of `ZMQHandler.handle`: `topic = msg[0]`, `body = msg[1]`,
sequence decoded from `msg[-1]` exactly when that part has length 4, and the
topic matched in source order against `b"hashblock"`, `b"hashtx"`,
`b"rawblock"`, `b"rawtx"`; `rawblock` payloads are truncated to the first 80
bytes (`body[:80]`). -/
def handleDecode (msg : RawFrame) : DecodeResult :=
  match msg.get? 0, msg.get? 1, msg.getLast? with
  | some topic, some body, some lastPart =>
    if topic = bytesOfAscii "hashblock" then
      .notif ⟨Topic.BlockHash, body, seqOf lastPart⟩
    else if topic = bytesOfAscii "hashtx" then
      .notif ⟨Topic.TxHash, body, seqOf lastPart⟩
    else if topic = bytesOfAscii "rawblock" then
      .notif ⟨Topic.RawBlockHeader, body.take 80, seqOf lastPart⟩
    else if topic = bytesOfAscii "rawtx" then
      .notif ⟨Topic.RawTx, body, seqOf lastPart⟩
    else
      .dropped
  | _, _, _ => .fault

/-- The notification produced for a frame, when one is. -/
def notifOf (msg : RawFrame) : Option Notification :=
  match handleDecode msg with
  | .notif n => some n
  | _ => none

/-- A consumer handler: the `print` calls of the source.  `true` means the
invocation returned normally, `false` means it raised. -/
abbrev Handler := Notification → Bool

/-- The ingestion loop over the finite list of frames that arrive, returning
the notifications the handler is invoked with, in order.  Each iteration of
`handle` decodes and dispatches one frame and only then reschedules itself
(`asyncio.ensure_future` is the last line), so a decode fault or a handler
exception ends the list: no further frame is received. -/
def handleLoop (h : Handler) : List RawFrame → List Notification
  | [] => []
  | msg :: rest =>
    match handleDecode msg with
    | .fault => []
    | .dropped => handleLoop h rest
    | .notif n => n :: (if h n then handleLoop h rest else [])

end ZMQHandler

/-- Observable events of one run of the ingestion loop. -/
inductive Event
  | recv (msg : RawFrame)
  | dispatchBegin (n : Notification)
  | dispatchEnd (n : Notification)
deriving DecidableEq, Repr

namespace ZMQHandler

/-- Event trace of the ingestion loop: each arriving frame is received, its
notification (if any) is dispatched — `dispatchEnd` is emitted only when the
handler returns normally — and only then is the next receive reached.  A
decode fault or a handler exception truncates the trace, since the source
reschedules `handle` only after the dispatch completes. -/
def handleTrace (h : Handler) : List RawFrame → List Event
  | [] => []
  | msg :: rest =>
    Event.recv msg ::
      match handleDecode msg with
      | .fault => []
      | .dropped => handleTrace h rest
      | .notif n =>
        Event.dispatchBegin n ::
          (if h n then Event.dispatchEnd n :: handleTrace h rest else [])

end ZMQHandler

/-- The spec-side sequential trace: frame after frame in arrival order, each
frame's receive followed by the begin and end of its own dispatch (none for a
dropped frame), strictly before the next frame's receive. -/
def orderedTrace : List RawFrame → List Event
  | [] => []
  | msg :: rest =>
    (Event.recv msg ::
        match ZMQHandler.notifOf msg with
        | some n => [Event.dispatchBegin n, Event.dispatchEnd n]
        | none => []) ++
      orderedTrace rest

/-- Lifecycle state of the `ZMQHandler` object: whether `start` has run,
whether the event loop is running, and whether the ZMQ context is still
alive.  `__init__` creates the context, so the constructed state has
`contextAlive = true` and everything else false. -/
structure HandlerState where
  started : Bool
  loopRunning : Bool
  contextAlive : Bool
deriving DecidableEq, Repr

/-- The state right after `ZMQHandler.__init__`: constructed, not started. -/
def initialState : HandlerState :=
  { started := false, loopRunning := false, contextAlive := true }

namespace ZMQHandler

/-- The `start` method: installs the signal handler, creates the `handle`
task, and runs the loop. -/
def start (s : HandlerState) : HandlerState :=
  { s with started := true, loopRunning := true }

/-- The `stop` method: `self.loop.stop()` then `self.zmqContext.destroy()`.
Both calls return normally in any state (stopping a non-running loop and
destroying a context repeatedly are no-ops), so `stop` is a total function of
the state. -/
def stop (s : HandlerState) : HandlerState :=
  { s with loopRunning := false, contextAlive := false }

end ZMQHandler

/-- The dispatcher states of the lifecycle state machine. -/
inductive DState
  | Idle
  | Running
  | Stopping
  | Stopped
deriving DecidableEq, Repr

/-- The dispatcher state exhibited by a handler state: `Idle` until `start`
has run, `Running` while the loop runs, `Stopped` once it no longer does. -/
def dispatcherState (s : HandlerState) : DState :=
  if s.started = false then DState.Idle
  else if s.loopRunning then DState.Running
  else DState.Stopped

/-! ## Helper lemmas about the decode step -/

lemma exists_getLast (a : Bytes) (l : List Bytes) : ∃ x, (a :: l).getLast? = some x := by
  have h : (a :: l) ≠ [] := by simp
  exact Option.isSome_iff_exists.mp ((List.getLast?_isSome (l := a :: l)).mpr h)

lemma handleDecode_cons_eq (topic body : Bytes) (rest : List Bytes) (lastPart : Bytes)
    (hx : (topic :: body :: rest).getLast? = some lastPart) :
    ZMQHandler.handleDecode (topic :: body :: rest) =
      (if topic = bytesOfAscii "hashblock" then
        DecodeResult.notif ⟨Topic.BlockHash, body, seqOf lastPart⟩
      else if topic = bytesOfAscii "hashtx" then
        DecodeResult.notif ⟨Topic.TxHash, body, seqOf lastPart⟩
      else if topic = bytesOfAscii "rawblock" then
        DecodeResult.notif ⟨Topic.RawBlockHeader, body.take 80, seqOf lastPart⟩
      else if topic = bytesOfAscii "rawtx" then
        DecodeResult.notif ⟨Topic.RawTx, body, seqOf lastPart⟩
      else
        DecodeResult.dropped) := by
  simp only [ZMQHandler.handleDecode, List.get?, hx]

lemma decode_hashblock (body : Bytes) (rest : List Bytes) (lastPart : Bytes)
    (hx : (bytesOfAscii "hashblock" :: body :: rest).getLast? = some lastPart) :
    ZMQHandler.handleDecode (bytesOfAscii "hashblock" :: body :: rest) =
      DecodeResult.notif ⟨Topic.BlockHash, body, seqOf lastPart⟩ := by
  rw [handleDecode_cons_eq _ _ _ _ hx, if_pos rfl]

lemma decode_hashtx (body : Bytes) (rest : List Bytes) (lastPart : Bytes)
    (hx : (bytesOfAscii "hashtx" :: body :: rest).getLast? = some lastPart) :
    ZMQHandler.handleDecode (bytesOfAscii "hashtx" :: body :: rest) =
      DecodeResult.notif ⟨Topic.TxHash, body, seqOf lastPart⟩ := by
  rw [handleDecode_cons_eq _ _ _ _ hx, if_neg (by decide), if_pos rfl]

lemma decode_rawblock (body : Bytes) (rest : List Bytes) (lastPart : Bytes)
    (hx : (bytesOfAscii "rawblock" :: body :: rest).getLast? = some lastPart) :
    ZMQHandler.handleDecode (bytesOfAscii "rawblock" :: body :: rest) =
      DecodeResult.notif ⟨Topic.RawBlockHeader, body.take 80, seqOf lastPart⟩ := by
  rw [handleDecode_cons_eq _ _ _ _ hx, if_neg (by decide), if_neg (by decide), if_pos rfl]

lemma decode_rawtx (body : Bytes) (rest : List Bytes) (lastPart : Bytes)
    (hx : (bytesOfAscii "rawtx" :: body :: rest).getLast? = some lastPart) :
    ZMQHandler.handleDecode (bytesOfAscii "rawtx" :: body :: rest) =
      DecodeResult.notif ⟨Topic.RawTx, body, seqOf lastPart⟩ := by
  rw [handleDecode_cons_eq _ _ _ _ hx, if_neg (by decide), if_neg (by decide),
    if_neg (by decide), if_pos rfl]

lemma decode_dropped (topic body : Bytes) (rest : List Bytes)
    (h1 : topic ≠ bytesOfAscii "hashblock") (h2 : topic ≠ bytesOfAscii "hashtx")
    (h3 : topic ≠ bytesOfAscii "rawblock") (h4 : topic ≠ bytesOfAscii "rawtx") :
    ZMQHandler.handleDecode (topic :: body :: rest) = DecodeResult.dropped := by
  obtain ⟨x, hx⟩ := exists_getLast topic (body :: rest)
  rw [handleDecode_cons_eq _ _ _ _ hx, if_neg h1, if_neg h2, if_neg h3, if_neg h4]

lemma notifOf_cons_inv {topic body : Bytes} {rest : List Bytes} {lastPart : Bytes}
    {n : Notification}
    (hx : (topic :: body :: rest).getLast? = some lastPart)
    (hn : ZMQHandler.notifOf (topic :: body :: rest) = some n) :
    (topic = bytesOfAscii "hashblock" ∧ n = ⟨Topic.BlockHash, body, seqOf lastPart⟩) ∨
    (topic = bytesOfAscii "hashtx" ∧ n = ⟨Topic.TxHash, body, seqOf lastPart⟩) ∨
    (topic = bytesOfAscii "rawblock" ∧
      n = ⟨Topic.RawBlockHeader, body.take 80, seqOf lastPart⟩) ∨
    (topic = bytesOfAscii "rawtx" ∧ n = ⟨Topic.RawTx, body, seqOf lastPart⟩) := by
  by_cases h1 : topic = bytesOfAscii "hashblock"
  · subst h1
    simp only [ZMQHandler.notifOf, decode_hashblock body rest lastPart hx] at hn
    exact Or.inl ⟨rfl, (Option.some.inj hn).symm⟩
  by_cases h2 : topic = bytesOfAscii "hashtx"
  · subst h2
    simp only [ZMQHandler.notifOf, decode_hashtx body rest lastPart hx] at hn
    exact Or.inr (Or.inl ⟨rfl, (Option.some.inj hn).symm⟩)
  by_cases h3 : topic = bytesOfAscii "rawblock"
  · subst h3
    simp only [ZMQHandler.notifOf, decode_rawblock body rest lastPart hx] at hn
    exact Or.inr (Or.inr (Or.inl ⟨rfl, (Option.some.inj hn).symm⟩))
  by_cases h4 : topic = bytesOfAscii "rawtx"
  · subst h4
    simp only [ZMQHandler.notifOf, decode_rawtx body rest lastPart hx] at hn
    exact Or.inr (Or.inr (Or.inr ⟨rfl, (Option.some.inj hn).symm⟩))
  · simp only [ZMQHandler.notifOf, decode_dropped topic body rest h1 h2 h3 h4] at hn
    exact Option.noConfusion hn

lemma notifOf_ge_two {msg : RawFrame} {n : Notification}
    (hn : ZMQHandler.notifOf msg = some n) : ∃ t b rest, msg = t :: b :: rest := by
  match msg with
  | [] => simp [ZMQHandler.notifOf, ZMQHandler.handleDecode, List.get?] at hn
  | [a] => simp [ZMQHandler.notifOf, ZMQHandler.handleDecode, List.get?] at hn
  | t :: b :: rest => exact ⟨t, b, rest, rfl⟩

lemma notif_sequence_eq {msg : RawFrame} {lastPart : Bytes} {n : Notification}
    (hl : msg.getLast? = some lastPart) (hn : ZMQHandler.notifOf msg = some n) :
    n.sequence = seqOf lastPart := by
  obtain ⟨t, b, rest, rfl⟩ := notifOf_ge_two hn
  rcases notifOf_cons_inv hl hn with ⟨_, rfl⟩ | ⟨_, rfl⟩ | ⟨_, rfl⟩ | ⟨_, rfl⟩ <;> rfl

lemma decode_cases {msg : RawFrame} (h2 : 2 ≤ msg.length) :
    (ZMQHandler.handleDecode msg = DecodeResult.dropped ∧
      ZMQHandler.notifOf msg = none) ∨
    (∃ n, ZMQHandler.handleDecode msg = DecodeResult.notif n ∧
      ZMQHandler.notifOf msg = some n) := by
  match msg, h2 with
  | t :: b :: r, _ =>
    obtain ⟨x, hx⟩ := exists_getLast t (b :: r)
    by_cases h1 : t = bytesOfAscii "hashblock"
    · subst h1
      have hd := decode_hashblock b r x hx
      exact Or.inr ⟨_, hd, by simp [ZMQHandler.notifOf, hd]⟩
    by_cases h2' : t = bytesOfAscii "hashtx"
    · subst h2'
      have hd := decode_hashtx b r x hx
      exact Or.inr ⟨_, hd, by simp [ZMQHandler.notifOf, hd]⟩
    by_cases h3 : t = bytesOfAscii "rawblock"
    · subst h3
      have hd := decode_rawblock b r x hx
      exact Or.inr ⟨_, hd, by simp [ZMQHandler.notifOf, hd]⟩
    by_cases h4 : t = bytesOfAscii "rawtx"
    · subst h4
      have hd := decode_rawtx b r x hx
      exact Or.inr ⟨_, hd, by simp [ZMQHandler.notifOf, hd]⟩
    · have hd := decode_dropped t b r h1 h2' h3 h4
      exact Or.inl ⟨hd, by simp [ZMQHandler.notifOf, hd]⟩

/-! ## Claim theorems -/

/-- C1: for every received frame whose topic is `b"rawblock"`, the decoded
payload is the first `min(80, len(body))` bytes of the body — truncation to 80
bytes, or the whole body when it is shorter, never failing; for every frame of
the other recognized topics the decoded payload equals the body exactly, with
no truncation. -/
theorem rawblock_payload_truncation (topic body : Bytes) (rest : List Bytes) :
    (topic = bytesOfAscii "rawblock" →
      ∀ n, ZMQHandler.notifOf (topic :: body :: rest) = some n →
        n.payload = body.take 80 ∧ n.payload.length = min 80 body.length) ∧
    (topic ≠ bytesOfAscii "rawblock" →
      ∀ n, ZMQHandler.notifOf (topic :: body :: rest) = some n →
        n.payload = body) := by
  obtain ⟨x, hx⟩ := exists_getLast topic (body :: rest)
  constructor
  · rintro rfl n hn
    rcases notifOf_cons_inv hx hn with ⟨h, _⟩ | ⟨h, _⟩ | ⟨_, rfl⟩ | ⟨h, _⟩
    · exact absurd h (by decide)
    · exact absurd h (by decide)
    · refine ⟨rfl, ?_⟩
      simp [List.length_take]
    · exact absurd h (by decide)
  · intro hne n hn
    rcases notifOf_cons_inv hx hn with ⟨_, rfl⟩ | ⟨_, rfl⟩ | ⟨h, _⟩ | ⟨_, rfl⟩
    · rfl
    · rfl
    · exact absurd h hne
    · rfl

/-- Witness for C1 at concrete frames: an 84-byte `rawblock` body is truncated
to its first 80 bytes, and a `hashtx` body is passed through unchanged. -/
theorem rawblock_payload_truncation_witness :
    Notification.payload ⟨Topic.RawBlockHeader, (List.range 84).take 80, some 7⟩ =
        (List.range 84).take 80 ∧
      (Notification.payload
          ⟨Topic.RawBlockHeader, (List.range 84).take 80, some 7⟩).length =
        min 80 (List.range 84).length ∧
      Notification.payload ⟨Topic.TxHash, [9, 9, 9], none⟩ = [9, 9, 9] :=
  ⟨((rawblock_payload_truncation (bytesOfAscii "rawblock") (List.range 84)
        [[7, 0, 0, 0]]).1 rfl _ (by decide)).1,
    ((rawblock_payload_truncation (bytesOfAscii "rawblock") (List.range 84)
        [[7, 0, 0, 0]]).1 rfl _ (by decide)).2,
    (rawblock_payload_truncation (bytesOfAscii "hashtx") [9, 9, 9] []).2
      (by decide) _ (by decide)⟩

/-- C2: for every received frame with a recognized topic whose last part is
exactly 4 bytes long, the decode produces a notification whose sequence equals
the little-endian unsigned 32-bit interpretation of that last part. -/
theorem sequence_le_uint32 (msg : RawFrame) (lastPart : Bytes) (n : Notification)
    (hl : msg.getLast? = some lastPart) (h4 : lastPart.length = 4)
    (hn : ZMQHandler.notifOf msg = some n) :
    n.sequence = some (leUint32 lastPart) := by
  rw [notif_sequence_eq hl hn, seqOf, if_pos h4]

/-- Witness for C2 at the concrete frame
`[b"hashblock", [1, 2], [7, 0, 0, 0]]`, whose sequence decodes to 7. -/
theorem sequence_le_uint32_witness :
    Notification.sequence ⟨Topic.BlockHash, [1, 2], some 7⟩ =
      some (leUint32 [7, 0, 0, 0]) :=
  sequence_le_uint32 [bytesOfAscii "hashblock", [1, 2], [7, 0, 0, 0]]
    [7, 0, 0, 0] ⟨Topic.BlockHash, [1, 2], some 7⟩ (by decide) (by decide) (by decide)

/-- C3: for every received frame whose last part's length is not 4 bytes, the
decoded notification's sequence field is `none`, regardless of topic. -/
theorem sequence_unknown (msg : RawFrame) (lastPart : Bytes) (n : Notification)
    (hl : msg.getLast? = some lastPart) (h4 : lastPart.length ≠ 4)
    (hn : ZMQHandler.notifOf msg = some n) :
    n.sequence = none := by
  rw [notif_sequence_eq hl hn, seqOf, if_neg h4]

/-- Witness for C3 at the concrete two-part frame `[b"hashtx", [9, 9, 9]]`,
whose trailing part is the 3-byte body, so the sequence is unknown. -/
theorem sequence_unknown_witness :
    Notification.sequence ⟨Topic.TxHash, [9, 9, 9], none⟩ = none :=
  sequence_unknown [bytesOfAscii "hashtx", [9, 9, 9]] [9, 9, 9]
    ⟨Topic.TxHash, [9, 9, 9], none⟩ (by decide) (by decide) (by decide)

/-- C9: for every 2-part frame `[topic, body]` whose body is exactly 4 bytes
long, the decode treats the body itself as the trailing sequence part, so the
sequence is the little-endian uint32 of the body rather than the
sequence-unknown value. -/
theorem two_part_frame_body_as_sequence (topic body : Bytes) (n : Notification)
    (h4 : body.length = 4)
    (hn : ZMQHandler.notifOf [topic, body] = some n) :
    n.sequence = some (leUint32 body) ∧ n.sequence ≠ none := by
  have hl : ([topic, body] : RawFrame).getLast? = some body := by
    simp [List.getLast?]
  rw [notif_sequence_eq hl hn, seqOf, if_pos h4]
  exact ⟨rfl, by simp⟩

/-- Witness for C9 at the concrete frame `[b"rawtx", [7, 0, 0, 0]]`: the
4-byte body doubles as the sequence part, decoding to 7. -/
theorem two_part_frame_body_as_sequence_witness :
    Notification.sequence ⟨Topic.RawTx, [7, 0, 0, 0], some 7⟩ =
        some (leUint32 [7, 0, 0, 0]) ∧
      Notification.sequence ⟨Topic.RawTx, [7, 0, 0, 0], some 7⟩ ≠ none :=
  two_part_frame_body_as_sequence (bytesOfAscii "rawtx") [7, 0, 0, 0]
    ⟨Topic.RawTx, [7, 0, 0, 0], some 7⟩ (by decide) (by decide)

/-- C10: the decode reads only the first part, the second part, and the last
part of a frame: two frames of length at least 2 agreeing on those three
projections decode identically, so middle parts never influence the output. -/
theorem decode_depends_only_on_ends (m1 m2 : RawFrame)
    (_hl1 : 2 ≤ m1.length) (_hl2 : 2 ≤ m2.length)
    (e0 : m1.get? 0 = m2.get? 0) (e1 : m1.get? 1 = m2.get? 1)
    (el : m1.getLast? = m2.getLast?) :
    ZMQHandler.handleDecode m1 = ZMQHandler.handleDecode m2 := by
  simp only [ZMQHandler.handleDecode, e0, e1, el]

/-- Witness for C10: a 3-part frame and a 4-part frame with an extra middle
part agree on first, second, and last parts, and decode identically. -/
theorem decode_depends_only_on_ends_witness :
    ZMQHandler.handleDecode [bytesOfAscii "hashtx", [1, 2, 3], [7, 0, 0, 0]] =
      ZMQHandler.handleDecode
        [bytesOfAscii "hashtx", [1, 2, 3], [99], [7, 0, 0, 0]] :=
  decode_depends_only_on_ends
    [bytesOfAscii "hashtx", [1, 2, 3], [7, 0, 0, 0]]
    [bytesOfAscii "hashtx", [1, 2, 3], [99], [7, 0, 0, 0]]
    (by decide) (by decide) (by decide) (by decide) (by decide)

/-- C8: for every raw frame of length at least 2 (the transport guarantee),
the decode step's element accesses — first part, second part, last part — are
all in bounds, and decoding never faults on indexing. -/
theorem frame_access_in_bounds (msg : RawFrame) (h : 2 ≤ msg.length) :
    (msg.get? 0).isSome ∧ (msg.get? 1).isSome ∧ msg.getLast?.isSome ∧
      ZMQHandler.handleDecode msg ≠ DecodeResult.fault := by
  match msg, h with
  | t :: b :: rest, _ =>
    obtain ⟨x, hx⟩ := exists_getLast t (b :: rest)
    refine ⟨rfl, rfl, by rw [hx]; rfl, ?_⟩
    rcases decode_cases
        (show 2 ≤ (t :: b :: rest : RawFrame).length by simp) with
        ⟨hd, _⟩ | ⟨n, hd, _⟩ <;>
      simp [hd]

/-- Witness for C8 at the concrete 2-part frame `[[1, 2], [3]]`. -/
theorem frame_access_in_bounds_witness :
    (([[1, 2], [3]] : RawFrame).get? 0).isSome ∧
      (([[1, 2], [3]] : RawFrame).get? 1).isSome ∧
      ([[1, 2], [3]] : RawFrame).getLast?.isSome ∧
      ZMQHandler.handleDecode [[1, 2], [3]] ≠ DecodeResult.fault :=
  frame_access_in_bounds [[1, 2], [3]] (by decide)

/-- C4: a frame whose topic matches none of the four literals produces no
notification and no handler invocation, raises nothing, and the loop proceeds
to receive the next frame — the frame is silently discarded. -/
theorem unrecognized_topic_discarded (topic body : Bytes) (rest : List Bytes)
    (h : ZMQHandler.Handler) (frames : List RawFrame)
    (h1 : topic ≠ bytesOfAscii "hashblock") (h2 : topic ≠ bytesOfAscii "hashtx")
    (h3 : topic ≠ bytesOfAscii "rawblock") (h4 : topic ≠ bytesOfAscii "rawtx") :
    ZMQHandler.handleDecode (topic :: body :: rest) = DecodeResult.dropped ∧
      ZMQHandler.notifOf (topic :: body :: rest) = none ∧
      ZMQHandler.handleLoop h ((topic :: body :: rest) :: frames) =
        ZMQHandler.handleLoop h frames ∧
      ZMQHandler.handleTrace h ((topic :: body :: rest) :: frames) =
        Event.recv (topic :: body :: rest) :: ZMQHandler.handleTrace h frames := by
  have hd := decode_dropped topic body rest h1 h2 h3 h4
  exact ⟨hd, by simp [ZMQHandler.notifOf, hd],
    by simp [ZMQHandler.handleLoop, hd], by simp [ZMQHandler.handleTrace, hd]⟩

/-- Witness for C4 at the concrete frame `[b"unknowntopic", [4]]` followed by
one recognized frame: the unknown frame is dropped and the loop moves on. -/
theorem unrecognized_topic_discarded_witness :
    ZMQHandler.handleDecode (bytesOfAscii "unknowntopic" :: [4] :: []) =
        DecodeResult.dropped ∧
      ZMQHandler.notifOf (bytesOfAscii "unknowntopic" :: [4] :: []) = none ∧
      ZMQHandler.handleLoop (fun _ => true)
          ((bytesOfAscii "unknowntopic" :: [4] :: []) ::
            [[bytesOfAscii "hashtx", [5]]]) =
        ZMQHandler.handleLoop (fun _ => true) [[bytesOfAscii "hashtx", [5]]] ∧
      ZMQHandler.handleTrace (fun _ => true)
          ((bytesOfAscii "unknowntopic" :: [4] :: []) ::
            [[bytesOfAscii "hashtx", [5]]]) =
        Event.recv (bytesOfAscii "unknowntopic" :: [4] :: []) ::
          ZMQHandler.handleTrace (fun _ => true) [[bytesOfAscii "hashtx", [5]]] :=
  unrecognized_topic_discarded (bytesOfAscii "unknowntopic") [4] []
    (fun _ => true) [[bytesOfAscii "hashtx", [5]]]
    (by decide) (by decide) (by decide) (by decide)

/-- C5 counterexample: the source's `handle` has no try/except around the
dispatch, and it reschedules the next receive only after the dispatch, so a
handler that raises on the first notification prevents the second frame's
notification from ever being dispatched — refuting the claim that the
notification for frame N+1 is still dispatched after a handler failure on
frame N. -/
theorem handler_exception_not_contained :
    ZMQHandler.handleLoop (fun _ => false)
        [[bytesOfAscii "hashtx", [1]], [bytesOfAscii "hashtx", [2]]] =
      [⟨Topic.TxHash, [1], none⟩] ∧
    (⟨Topic.TxHash, [2], none⟩ : Notification) ∉
      ZMQHandler.handleLoop (fun _ => false)
        [[bytesOfAscii "hashtx", [1]], [bytesOfAscii "hashtx", [2]]] := by
  decide

/-- C5 amended: when the handler raises on the notification decoded from frame
N, the exception escapes `handle` before `asyncio.ensure_future` runs, so no
further receive is scheduled: the ingestion loop halts and the notification
for frame N+1 (and every later frame) is never dispatched. -/
theorem handler_exception_halts_loop (h : ZMQHandler.Handler) (msg : RawFrame)
    (n : Notification) (rest : List RawFrame)
    (hd : ZMQHandler.handleDecode msg = DecodeResult.notif n) (hr : h n = false) :
    ZMQHandler.handleLoop h (msg :: rest) = [n] ∧
      ZMQHandler.handleTrace h (msg :: rest) =
        [Event.recv msg, Event.dispatchBegin n] := by
  constructor <;> simp [ZMQHandler.handleLoop, ZMQHandler.handleTrace, hd, hr]

/-- Witness for the amended C5: a handler raising on the first `hashtx`
notification halts the loop with exactly that one invocation. -/
theorem handler_exception_halts_loop_witness :
    ZMQHandler.handleLoop (fun _ => false)
        ([bytesOfAscii "hashtx", [1]] :: [[bytesOfAscii "rawtx", [2]]]) =
      [⟨Topic.TxHash, [1], none⟩] ∧
    ZMQHandler.handleTrace (fun _ => false)
        ([bytesOfAscii "hashtx", [1]] :: [[bytesOfAscii "rawtx", [2]]]) =
      [Event.recv [bytesOfAscii "hashtx", [1]],
        Event.dispatchBegin ⟨Topic.TxHash, [1], none⟩] :=
  handler_exception_halts_loop (fun _ => false) [bytesOfAscii "hashtx", [1]]
    ⟨Topic.TxHash, [1], none⟩ [[bytesOfAscii "rawtx", [2]]] (by decide) rfl

/-- C6: when the handler never raises and every frame has at least two parts,
the notifications dispatched by the loop are exactly the decoded notifications
of the arriving frames, in arrival order, and the event trace is the strictly
sequential one: each frame's receive, then the begin and end of its own
dispatch, entirely before the next frame's receive — so dispatch N+1 never
begins before dispatch N returns, and the next receive follows the completed
dispatch. -/
theorem dispatch_in_arrival_order (h : ZMQHandler.Handler) (frames : List RawFrame)
    (hok : ∀ n, h n = true) (hlen : ∀ msg ∈ frames, 2 ≤ msg.length) :
    ZMQHandler.handleLoop h frames = frames.filterMap ZMQHandler.notifOf ∧
      ZMQHandler.handleTrace h frames = orderedTrace frames := by
  revert hlen
  induction frames with
  | nil => exact fun _ => ⟨rfl, rfl⟩
  | cons msg rest ih =>
    intro hlen
    obtain ⟨ih1, ih2⟩ := ih (fun m hm => hlen m (by simp [hm]))
    rcases decode_cases (hlen msg (by simp)) with ⟨hd, hno⟩ | ⟨n, hd, hno⟩
    · exact ⟨by simp [ZMQHandler.handleLoop, hd, hno, ih1],
        by simp [ZMQHandler.handleTrace, orderedTrace, hd, hno, ih2]⟩
    · exact ⟨by simp [ZMQHandler.handleLoop, hd, hno, hok n, ih1],
        by simp [ZMQHandler.handleTrace, orderedTrace, hd, hno, hok n, ih2]⟩

/-- Witness for C6 on three concrete frames (one of them dropped): the loop
output and the trace match the sequential per-arrival composition. -/
theorem dispatch_in_arrival_order_witness :
    ZMQHandler.handleLoop (fun _ => true)
        [[bytesOfAscii "hashtx", [1]], [[5], [6]],
          [bytesOfAscii "rawtx", [2], [7, 0, 0, 0]]] =
      List.filterMap ZMQHandler.notifOf
        [[bytesOfAscii "hashtx", [1]], [[5], [6]],
          [bytesOfAscii "rawtx", [2], [7, 0, 0, 0]]] ∧
    ZMQHandler.handleTrace (fun _ => true)
        [[bytesOfAscii "hashtx", [1]], [[5], [6]],
          [bytesOfAscii "rawtx", [2], [7, 0, 0, 0]]] =
      orderedTrace
        [[bytesOfAscii "hashtx", [1]], [[5], [6]],
          [bytesOfAscii "rawtx", [2], [7, 0, 0, 0]]] :=
  dispatch_in_arrival_order (fun _ => true)
    [[bytesOfAscii "hashtx", [1]], [[5], [6]],
      [bytesOfAscii "rawtx", [2], [7, 0, 0, 0]]]
    (fun _ => rfl) (by decide)

/-- C7: `stop` never faults (it is a total function of the lifecycle state)
and is idempotent: a second `stop` leaves the dispatcher `Stopped`, and a
`stop` issued before `start` leaves it `Idle`. -/
theorem stop_idempotent_lifecycle :
    ZMQHandler.stop (ZMQHandler.stop (ZMQHandler.start initialState)) =
        ZMQHandler.stop (ZMQHandler.start initialState) ∧
      dispatcherState (ZMQHandler.stop (ZMQHandler.start initialState)) =
        DState.Stopped ∧
      dispatcherState
          (ZMQHandler.stop (ZMQHandler.stop (ZMQHandler.start initialState))) =
        DState.Stopped ∧
      dispatcherState initialState = DState.Idle ∧
      dispatcherState (ZMQHandler.stop initialState) = DState.Idle ∧
      ∀ s : HandlerState, ZMQHandler.stop (ZMQHandler.stop s) = ZMQHandler.stop s :=
  ⟨rfl, rfl, rfl, rfl, rfl, fun _ => rfl⟩
